import Mathlib

/-!
Shallow embedding of `src/cluster_analysis.py`, the student-clustering
pipeline: schema coercion (`load_and_prepare_data`, lines 31-45), ordinal
encoding (lines 53-55), one-hot encoding (lines 57-59), standard scaling
(lines 61-87), k-means fitting and validation (`run_kmeans`, lines 114-131),
silhouette scoring (line 121) and per-cluster profiling
(`analyze_clusters`, lines 133-156).

Machine floats are modelled by exact numbers: rationals where the
computation is field arithmetic, reals where a square root occurs
(standard deviation, Euclidean distance).  A missing value (pandas `NaN`)
is modelled by `Option`.  Library calls (pandas `to_numeric`, `map`,
`get_dummies`, `groupby`/`mode`, sklearn `StandardScaler`, `KMeans`,
`silhouette_score`) are embedded from their documented semantics, since
their bodies are not part of this repository.
-/

namespace StudentClustering

/-- A raw table cell: either a number or free text (pandas object column). -/
inductive Cell where
  | num (q : ℚ)
  | str (s : String)
deriving DecidableEq

/-- One raw input row, with the `students_survey.csv` column schema:
identifier, four numeric fields, the ordinal field and four nominal fields. -/
structure RawRecord where
  studentID : Cell
  studyHours : Cell
  techSkill : Cell
  motivation : Cell
  age : Cell
  internet : String
  device : String
  location : String
  onlinePref : String
  dataAccess : String
deriving DecidableEq

/-- A row after schema coercion (lines 31-45): integer identifier,
numeric fields parsed to numbers, categorical fields kept as raw text. -/
structure TypedRecord where
  studentID : ℤ
  studyHours : ℚ
  techSkill : ℚ
  motivation : ℚ
  age : ℚ
  internet : String
  device : String
  location : String
  onlinePref : String
  dataAccess : String
deriving DecidableEq

/-- Numeric value of a decimal digit character, `none` otherwise. -/
def digitVal (c : Char) : Option ℕ :=
  if c.isDigit then some (c.toNat - 48) else none

/-- Value of a digit string; `none` as soon as a non-digit occurs. -/
def digitsVal (cs : List Char) : Option ℕ :=
  cs.foldl (fun acc c =>
    match acc, digitVal c with
    | some n, some d => some (10 * n + d)
    | _, _ => none) (some 0)

/-- Decimal-literal fragment of `pd.to_numeric` string parsing:
digits with at most one decimal point, at least one digit overall. -/
def parseUnsigned (cs : List Char) : Option ℚ :=
  match cs.splitOn '.' with
  | [ip] => if ip = [] then none else (digitsVal ip).map (fun n => (n : ℚ))
  | [ip, fp] =>
      if ip = [] && fp = [] then none
      else
        match digitsVal ip, digitsVal fp with
        | some n, some m => some ((n : ℚ) + (m : ℚ) / (10 : ℚ) ^ fp.length)
        | _, _ => none
  | _ => none

/-- Parses a decimal literal with optional sign; `none` when the
text is not numeric (the `errors='coerce'` case, e.g. the "MAIN" row). -/
def parseDecimal (s : String) : Option ℚ :=
  match s.toList with
  | [] => none
  | '-' :: rest => (parseUnsigned rest).map (fun q => -q)
  | '+' :: rest => parseUnsigned rest
  | cs => parseUnsigned cs

/-- Conversion of one cell, the per-cell semantics of the coercing numeric conversion at lines 32 and 41: numbers pass through,
text is parsed as a number, anything else becomes missing. -/
def toNumeric : Cell → Option ℚ
  | Cell.num q => some q
  | Cell.str s => parseDecimal s

/-- Integer cast of a float value (line 34): truncation toward zero. -/
def truncQ (q : ℚ) : ℤ := if 0 ≤ q then ⌊q⌋ else ⌈q⌉

/-- Lines 31-45 on one row: `to_numeric` on the identifier and on each of
the four required numeric fields, dropping the row (`dropna`) when any
conversion fails, and `astype(int)` on the kept identifier. -/
def coerceRow (r : RawRecord) : Option TypedRecord :=
  match toNumeric r.studentID, toNumeric r.studyHours, toNumeric r.techSkill,
      toNumeric r.motivation, toNumeric r.age with
  | some i, some sh, some ts, some mo, some ag =>
      some ⟨truncQ i, sh, ts, mo, ag, r.internet, r.device, r.location,
        r.onlinePref, r.dataAccess⟩
  | _, _, _, _, _ => none

/-- Lines 31-45 of `load_and_prepare_data`: the schema-coercion stage,
keeping exactly the rows whose identifier and numeric fields all convert. -/
def clean_table (rows : List RawRecord) : List TypedRecord :=
  rows.filterMap coerceRow

/-- Line 54: the fixed ordinal lookup `internet_map`; a value outside the
closed set maps to missing (`Series.map` yields `NaN` off the dict). -/
def internet_map (s : String) : Option ℕ :=
  if s = "Slow" then some 1
  else if s = "Average" then some 2
  else if s = "Fast" then some 3
  else none

/-- Line 55: column-wise application of the ordinal lookup. -/
def encodeInternet (rows : List TypedRecord) : List (Option ℕ) :=
  rows.map (fun r => internet_map r.internet)

/-- The four nominal columns of line 58, indexed in source order:
Device, Location, OnlineClassPreference, DataAccess. -/
def nomField (j : Fin 4) (r : TypedRecord) : String :=
  if j.val = 0 then r.device
  else if j.val = 1 then r.location
  else if j.val = 2 then r.onlinePref
  else r.dataAccess

/-- Identity of one column of the encoded frame `df_to_scale`:
a retained numeric column, the mapped ordinal column, or one indicator
column `dummy j v` produced by `get_dummies` for observed value `v` of
nominal column `j`.  `studentID` is the identifier column dropped at
line 66. -/
inductive Col where
  | studentID
  | studyHours
  | techSkill
  | motivation
  | age
  | internet
  | dummy (j : Fin 4) (v : String)
deriving DecidableEq

/-- Number of indicator columns `get_dummies` generates for nominal
column `j`: one per distinct value observed in the dataset
(`drop_first=False`, so no category is dropped). -/
def dummyCount (rows : List TypedRecord) (j : Fin 4) : ℕ :=
  ((rows.map (nomField j)).dedup).length

/-- The columns of `df_to_scale` (line 66): the four numeric columns, the
mapped ordinal column and every indicator column, with `StudentID`
dropped.  Column order inside a nominal block is abstracted. -/
def featureCols (rows : List TypedRecord) : List Col :=
  [Col.studyHours, Col.techSkill, Col.motivation, Col.age, Col.internet]
    ++ ((List.finRange 4).map
        (fun j => ((rows.map (nomField j)).dedup).map (Col.dummy j))).flatten

/-- Width of the encoded feature frame handed to the scaler. -/
def encodedColCount (rows : List TypedRecord) : ℕ :=
  (featureCols rows).length

/-- Arithmetic mean of a real column (`0` on an empty column, since
`x / 0 = 0` in the embedding's field). -/
noncomputable def mean (xs : List ℝ) : ℝ := xs.sum / xs.length

/-- Population variance, the `ddof=0` variance `StandardScaler` uses. -/
noncomputable def pvariance (xs : List ℝ) : ℝ :=
  ((xs.map (fun x => (x - mean xs) ^ 2)).sum) / xs.length

/-- Population standard deviation. -/
noncomputable def stddev (xs : List ℝ) : ℝ := Real.sqrt (pvariance xs)

/-- The divisor `StandardScaler` actually applies: a zero standard
deviation is replaced by `1` (`_handle_zeros_in_scale`), so a constant
column scales to all zeros instead of dividing by zero. -/
noncomputable def scaleFactor (xs : List ℝ) : ℝ :=
  if stddev xs = 0 then 1 else stddev xs

/-- Lines 84-85 on one fully numeric column: standardization
`(x - mean) / std` with the zero-variance guard. -/
noncomputable def standardize (xs : List ℝ) : List ℝ :=
  xs.map (fun x => (x - mean xs) / scaleFactor xs)

/-- The values of a column that are actually present (non-`NaN`). -/
def presentVals (xs : List (Option ℝ)) : List ℝ := xs.filterMap id

/-- Lines 84-85 on a column that may contain missing values:
`StandardScaler` fits on the present values only (NaNs are disregarded
in fit and maintained in transform), so a missing entry stays missing
and every present entry is standardized. -/
noncomputable def scaleColumnOpt (xs : List (Option ℝ)) : List (Option ℝ) :=
  xs.map (Option.map
    (fun x => (x - mean (presentVals xs)) / scaleFactor (presentVals xs)))

/-- The raw (pre-scaling) values of one encoded column, one entry per row
in row order.  Only the mapped ordinal column can contain missing values. -/
noncomputable def columnOf (rows : List TypedRecord) : Col → List (Option ℝ)
  | Col.studentID => rows.map (fun r => some ((r.studentID : ℤ) : ℝ))
  | Col.studyHours => rows.map (fun r => some ((r.studyHours : ℚ) : ℝ))
  | Col.techSkill => rows.map (fun r => some ((r.techSkill : ℚ) : ℝ))
  | Col.motivation => rows.map (fun r => some ((r.motivation : ℚ) : ℝ))
  | Col.age => rows.map (fun r => some ((r.age : ℚ) : ℝ))
  | Col.internet => rows.map (fun r => (internet_map r.internet).map (fun n => (n : ℝ)))
  | Col.dummy j v => rows.map (fun r => some (if nomField j r = v then (1 : ℝ) else 0))

/-- The full preparation pipeline (lines 18-87): coerce the raw table, keep the
typed copy, encode and scale; returns the scaled columns, the original
typed copy and the feature-column list. -/
noncomputable def load_and_prepare_data (rows : List RawRecord) :
    List (List (Option ℝ)) × List TypedRecord × List Col :=
  ((featureCols (clean_table rows)).map
      (fun c => scaleColumnOpt (columnOf (clean_table rows) c)),
    clean_table rows, featureCols (clean_table rows))

/-- A feature vector, one coordinate per feature column. -/
abbrev Point := List ℚ

/-- Squared Euclidean distance, the metric k-means minimizes internally. -/
def dist2 (p q : Point) : ℚ := ((p.zip q).map (fun pr => (pr.1 - pr.2) ^ 2)).sum

/-- Index of the first minimum of the remaining list, given the running
best index and value. -/
def argminAux : List ℚ → ℕ → ℕ → ℚ → ℕ
  | [], _, bi, _ => bi
  | x :: xs, i, bi, bv =>
      if x < bv then argminAux xs (i + 1) i x else argminAux xs (i + 1) bi bv

/-- Index of the first minimum of a list (`0` on the empty list). -/
def argmin : List ℚ → ℕ
  | [] => 0
  | x :: xs => argminAux xs 1 0 x

/-- Assignment step: each point goes to its nearest centroid, ties to the
lowest centroid index; one label per row in row order. -/
def assignLabels (cents : List Point) (data : List Point) : List ℕ :=
  data.map (fun p => argmin (cents.map (fun c => dist2 p c)))

/-- Minimum of a rational list (`0` on the empty list). -/
def listMinQ : List ℚ → ℚ
  | [] => 0
  | x :: xs => xs.foldl min x

/-- Arithmetic mean of a rational column (`0` on an empty column). -/
def meanQ (xs : List ℚ) : ℚ := xs.sum / xs.length

/-- Coordinate-wise mean of a set of points, in dimension `dim`. -/
def meanPoint (ps : List Point) (dim : ℕ) : Point :=
  (List.range dim).map (fun d => meanQ (ps.map (fun p => p.getD d 0)))

/-- Update step for centroid `j`: mean of its assigned points; a centroid
that lost every point keeps its position. -/
def updateCentroid (data : List Point) (labels : List ℕ) (old : Point) (j : ℕ) :
    Point :=
  if ((data.zip labels).filter (fun pr => pr.2 = j)).map Prod.fst = [] then old
  else meanPoint (((data.zip labels).filter (fun pr => pr.2 = j)).map Prod.fst)
    old.length

/-- Lloyd iteration with an iteration cap (sklearn `max_iter`, 300 at the
call sites): reassign, recompute centroids, stop when centroids are
stable; returns the final labels and centroids. -/
def lloyd (data : List Point) : ℕ → List Point → List ℕ × List Point
  | 0, cents => (assignLabels cents data, cents)
  | fuel + 1, cents =>
      if (List.range cents.length).map
          (fun j => updateCentroid data (assignLabels cents data) (cents.getD j []) j)
          = cents
      then (assignLabels cents data, cents)
      else lloyd data fuel
        ((List.range cents.length).map
          (fun j => updateCentroid data (assignLabels cents data) (cents.getD j []) j))

/-- A linear congruential step: the embedding's deterministic PRNG,
standing for numpy's seeded generator under `random_state=42`. -/
def lcg (s : ℕ) : ℕ := (1103515245 * s + 12345) % 2147483648

/-- First index whose prefix sum of weights reaches `r`
(weighted sampling step of k-means++). -/
def pickWeighted : List ℚ → ℚ → ℕ
  | [], _ => 0
  | [_], _ => 0
  | w :: ws, r => if r ≤ w then 0 else pickWeighted ws (r - w) + 1

/-- Remaining k-means++ picks: each next centroid is drawn with
probability proportional to the squared distance to the chosen ones,
using the deterministic PRNG stream. -/
def seedAux (data : List Point) : ℕ → List Point → ℕ → List Point
  | 0, cents, _ => cents.reverse
  | m + 1, cents, s =>
      seedAux data m
        (data.getD
          (pickWeighted (data.map (fun p => listMinQ (cents.map (fun c => dist2 p c))))
            (((lcg s % 1000 : ℕ) : ℚ) / 1000
              * (data.map (fun p => listMinQ (cents.map (fun c => dist2 p c)))).sum))
          [] :: cents) (lcg s)

/-- Modelled from the spec: the variance-aware seeding heuristic
(`init='k-means++'`) of the Cluster Fitter, whose implementation lives in
scikit-learn, not in `src/`; a deterministic function of the data, the
cluster count and the seed. -/
def seedCentroids (data : List Point) (k : ℕ) (s : ℕ) : List Point :=
  match k with
  | 0 => []
  | m + 1 => seedAux data m [data.getD (lcg s % data.length) []] (lcg (lcg s))

/-- Within-cluster sum of squared distances to the nearest centroid. -/
def inertiaOf (data : List Point) (cents : List Point) : ℚ :=
  (data.map (fun p => listMinQ (cents.map (fun c => dist2 p c)))).sum

/-- One k-means restart: seed, run Lloyd to stability or the cap, report
labels and final cost. -/
def kmeansSingle (data : List Point) (k : ℕ) (s : ℕ) : List ℕ × ℚ :=
  ((lloyd data 300 (seedCentroids data k s)).1,
    inertiaOf data (lloyd data 300 (seedCentroids data k s)).2)

/-- Lowest-cost run; on equal cost the earlier run is kept
(ties broken by restart index). -/
def bestOf : List (List ℕ × ℚ) → List ℕ × ℚ → List ℕ × ℚ
  | [], best => best
  | c :: cs, best => bestOf cs (if c.2 < best.2 then c else best)

/-- Modelled from the spec: `run_kmeans` (lines 114-131) fitting
`KMeans(n_clusters=k, init='k-means++', random_state=seed, n_init=nInit)`:
`nInit` independent restarts with seeds derived deterministically from the
fixed seed, keeping the lowest-inertia run, and returning its labels. -/
def run_kmeans (data : List Point) (k : ℕ) (seed : ℕ) (nInit : ℕ) : List ℕ :=
  (bestOf
    ((List.range (nInit - 1)).map (fun i => kmeansSingle data k (seed + i + 1)))
    (kmeansSingle data k seed)).1

/-- Modelled from the spec: the configuration validation the fitter
performs before fitting (sklearn rejects `n_clusters < 1` at parameter
validation and `n_samples < n_clusters` at fit time, each a `ValueError`
surfaced to the caller, so no assignment is produced). -/
def run_kmeans_checked (data : List Point) (k : ℕ) (seed : ℕ) (nInit : ℕ) :
    Except String (List ℕ) :=
  if k < 1 then Except.error "n_clusters must be at least 1"
  else if data.length < k then Except.error "n_samples must be at least n_clusters"
  else Except.ok (run_kmeans data k seed nInit)

/-- Row positions carrying cluster label `c`. -/
def idxOfLabel (labels : List ℕ) (c : ℕ) : List ℕ :=
  ((labels.enum).filter (fun pr => pr.2 = c)).map Prod.fst

/-- Euclidean distance between feature vectors. -/
noncomputable def euclid (p q : List ℝ) : ℝ :=
  Real.sqrt (((p.zip q).map (fun pr => (pr.1 - pr.2) ^ 2)).sum)

/-- Minimum of a real list (`0` on the empty list). -/
noncomputable def listMinR : List ℝ → ℝ
  | [] => 0
  | x :: xs => xs.foldl min x

/-- Mean distance from point `i` to the other members of its own cluster. -/
noncomputable def sil_a (data : List (List ℝ)) (labels : List ℕ) (i : ℕ) : ℝ :=
  mean (((idxOfLabel labels (labels.getD i 0)).filter (fun j => j ≠ i)).map
    (fun j => euclid (data.getD i []) (data.getD j [])))

/-- Minimum over the other clusters of the mean distance from point `i`
to that cluster's members. -/
noncomputable def sil_b (data : List (List ℝ)) (labels : List ℕ) (i : ℕ) : ℝ :=
  listMinR (((labels.dedup).filter (fun c => c ≠ labels.getD i 0)).map
    (fun c => mean ((idxOfLabel labels c).map
      (fun j => euclid (data.getD i []) (data.getD j [])))))

/-- Modelled from the spec: the per-point cohesion/separation term
`(b - a) / max a b` of the Cluster Quality Scorer (line 121 calls
scikit-learn's silhouette, whose implementation is not in `src/`); the
term is defined as `0` for a point in a singleton cluster and when no
other cluster exists (the `k = 1` degenerate case). -/
noncomputable def silSample (data : List (List ℝ)) (labels : List ℕ) (i : ℕ) : ℝ :=
  if (idxOfLabel labels (labels.getD i 0)).filter (fun j => j ≠ i) = [] then 0
  else if (labels.dedup).filter (fun c => c ≠ labels.getD i 0) = [] then 0
  else (sil_b data labels i - sil_a data labels i) /
    max (sil_a data labels i) (sil_b data labels i)

/-- The quality score: mean of the per-point terms over all rows. -/
noncomputable def silhouette_score (data : List (List ℝ)) (labels : List ℕ) : ℝ :=
  mean ((List.range labels.length).map (fun i => silSample data labels i))

/-- The typed rows carrying cluster label `c`, in stable row order
(the groupby at lines 148-151 pairs rows with labels positionally). -/
def groupRows (rows : List TypedRecord) (labels : List ℕ) (c : ℕ) : List TypedRecord :=
  ((rows.zip labels).filter (fun pr => pr.2 = c)).map Prod.fst

/-- Distinct values in order of first occurrence. -/
def firstOccurAux : List String → List String → List String
  | [], acc => acc.reverse
  | x :: xs, acc => if x ∈ acc then firstOccurAux xs acc else firstOccurAux xs (x :: acc)

/-- Code-point comparison of character lists, lexicographic. -/
def strLtAux : List Char → List Char → Bool
  | [], [] => false
  | [], _ :: _ => true
  | _ :: _, [] => false
  | a :: as, b :: bs =>
      if a.toNat < b.toNat then true
      else if b.toNat < a.toNat then false
      else strLtAux as bs

/-- The strict sort order pandas applies to a set of string modes:
lexicographic comparison by code point. -/
def strLt (a b : String) : Bool := strLtAux a.toList b.toList

/-- Whether `v` is a strictly better mode representative than `w` for the
column `xs`: strictly more frequent, or equally frequent and smaller in
the sort order pandas applies to the mode set. -/
def modeBetter (xs : List String) (v w : String) : Bool :=
  if xs.count w < xs.count v then true
  else if xs.count v = xs.count w then strLt v w
  else false

/-- Scan of the candidate values keeping the best representative. -/
def modePick (xs : List String) : List String → String → String
  | [], best => best
  | v :: vs, best => modePick xs vs (if modeBetter xs v best then v else best)

/-- Mode selection at line 151: pandas returns the set of most
frequent values in sorted order, so taking row 0 yields the smallest
most-frequent value (`""` only on an empty column). -/
def modeOf (xs : List String) : String :=
  match firstOccurAux xs [] with
  | [] => ""
  | v :: vs => modePick xs vs v

/-- Highest frequency attained by any value of the column. -/
def maxCount (xs : List String) : ℕ :=
  (xs.map (fun v => xs.count v)).foldr max 0

/-- Modelled from the spec: the mode with ties broken by the
first-encountered value in stable row order, as the claim words it; kept
for comparison with the pandas behavior `modeOf`. -/
def firstModeOf (xs : List String) : String :=
  ((firstOccurAux xs []).filter (fun v => xs.count v = maxCount xs)).headD ""

/-- The distinct labels in ascending order (pandas groupby sorts keys). -/
def distinctLabelsSorted (labels : List ℕ) : List ℕ :=
  (List.range (labels.foldr max 0 + 1)).filter (fun c => c ∈ labels)

/-- One summary row of the persona table: per-cluster means of the
numeric fields and modes of the raw categorical fields. -/
structure ClusterProfile where
  cluster : ℕ
  meanStudyHours : ℚ
  meanTechSkill : ℚ
  meanMotivation : ℚ
  meanAge : ℚ
  modeDevice : String
  modeInternet : String
  modeLocation : String
  modeOnlinePref : String
  modeDataAccess : String
deriving DecidableEq

/-- The original device values of one cluster group. -/
def groupDevices (rows : List TypedRecord) (labels : List ℕ) (c : ℕ) : List String :=
  (groupRows rows labels c).map TypedRecord.device

/-- The original (un-encoded) internet values of one cluster group. -/
def groupInternet (rows : List TypedRecord) (labels : List ℕ) (c : ℕ) : List String :=
  (groupRows rows labels c).map TypedRecord.internet

/-- The original location values of one cluster group. -/
def groupLocation (rows : List TypedRecord) (labels : List ℕ) (c : ℕ) : List String :=
  (groupRows rows labels c).map TypedRecord.location

/-- The original online-class-preference values of one cluster group. -/
def groupOnlinePref (rows : List TypedRecord) (labels : List ℕ) (c : ℕ) : List String :=
  (groupRows rows labels c).map TypedRecord.onlinePref

/-- The original data-access values of one cluster group. -/
def groupDataAccess (rows : List TypedRecord) (labels : List ℕ) (c : ℕ) : List String :=
  (groupRows rows labels c).map TypedRecord.dataAccess

/-- What the mode entry pandas reports for a column is: an element of the
column, at least as frequent as every value in it, and on equal frequency
the smallest in the sort order pandas applies to the mode set. -/
def pandasMode (xs : List String) (m : String) : Prop :=
  m ∈ xs
  ∧ ∀ w ∈ xs, xs.count w ≤ xs.count m
      ∧ (xs.count w = xs.count m → m = w ∨ strLt m w = true)

/-- The summary row for cluster `c` (lines 148-154): arithmetic mean of
each numeric field, mode of each raw categorical field, over the rows of
the group. -/
def profileOf (rows : List TypedRecord) (labels : List ℕ) (c : ℕ) : ClusterProfile :=
  { cluster := c
    meanStudyHours := meanQ ((groupRows rows labels c).map TypedRecord.studyHours)
    meanTechSkill := meanQ ((groupRows rows labels c).map TypedRecord.techSkill)
    meanMotivation := meanQ ((groupRows rows labels c).map TypedRecord.motivation)
    meanAge := meanQ ((groupRows rows labels c).map TypedRecord.age)
    modeDevice := modeOf (groupDevices rows labels c)
    modeInternet := modeOf (groupInternet rows labels c)
    modeLocation := modeOf (groupLocation rows labels c)
    modeOnlinePref := modeOf (groupOnlinePref rows labels c)
    modeDataAccess := modeOf (groupDataAccess rows labels c) }

/-- The profiler (lines 133-156): one summary row per distinct
cluster label, labels in ascending order, each summarizing the original
typed rows of that cluster. -/
def analyze_clusters (rows : List TypedRecord) (labels : List ℕ) :
    List ClusterProfile :=
  (distinctLabelsSorted labels).map (profileOf rows labels)

/-! ### Helper lemmas: schema coercion -/

lemma coerceRow_spec (r : RawRecord) (t : TypedRecord) (h : coerceRow r = some t) :
    ∃ q : ℚ, toNumeric r.studentID = some q ∧ t.studentID = truncQ q
      ∧ toNumeric r.studyHours = some t.studyHours
      ∧ toNumeric r.techSkill = some t.techSkill
      ∧ toNumeric r.motivation = some t.motivation
      ∧ toNumeric r.age = some t.age := by
  rcases h0 : toNumeric r.studentID with _ | q <;>
    rcases h1 : toNumeric r.studyHours with _ | sh <;>
      rcases h2 : toNumeric r.techSkill with _ | ts <;>
        rcases h3 : toNumeric r.motivation with _ | mo <;>
          rcases h4 : toNumeric r.age with _ | ag <;>
            simp only [coerceRow, h0, h1, h2, h3, h4] at h <;>
              cases h
  exact ⟨q, rfl, rfl, rfl, rfl, rfl, rfl⟩

lemma coerceRow_eq_some (r : RawRecord) (q sh ts mo ag : ℚ)
    (h0 : toNumeric r.studentID = some q) (h1 : toNumeric r.studyHours = some sh)
    (h2 : toNumeric r.techSkill = some ts) (h3 : toNumeric r.motivation = some mo)
    (h4 : toNumeric r.age = some ag) :
    coerceRow r = some ⟨truncQ q, sh, ts, mo, ag, r.internet, r.device,
      r.location, r.onlinePref, r.dataAccess⟩ := by
  simp only [coerceRow, h0, h1, h2, h3, h4]

lemma coerceRow_eq_none (r : RawRecord)
    (h : toNumeric r.studentID = none ∨ toNumeric r.studyHours = none
      ∨ toNumeric r.techSkill = none ∨ toNumeric r.motivation = none
      ∨ toNumeric r.age = none) :
    coerceRow r = none := by
  rcases h0 : toNumeric r.studentID with _ | q <;>
    rcases h1 : toNumeric r.studyHours with _ | sh <;>
      rcases h2 : toNumeric r.techSkill with _ | ts <;>
        rcases h3 : toNumeric r.motivation with _ | mo <;>
          rcases h4 : toNumeric r.age with _ | ag <;>
            simp only [coerceRow, h0, h1, h2, h3, h4] <;>
              rcases h with h | h | h | h | h <;> simp_all

lemma parse37 : parseDecimal "3.7" = some (37 / 10) := by
  have h : parseDecimal "3.7" = parseUnsigned ['3', '.', '7'] := rfl
  have h2 : List.splitOn '.' ['3', '.', '7'] = [['3'], ['7']] := by decide
  have h3 : digitsVal ['3'] = some 3 := by decide
  have h4 : digitsVal ['7'] = some 7 := by decide
  rw [h, parseUnsigned, h2]
  simp [h3, h4]
  norm_num

lemma trunc37 : truncQ (37 / 10) = 3 := by norm_num [truncQ]

/-! ### Claim theorems: C1, C2, C10 -/

/-- C1: Schema Coercion keeps at most as many rows as it receives; every
kept row originates from an input row whose identifier and all four
required numeric fields convert to numbers, and carries exactly those
converted values (the identifier truncated to an integer); any input row
failing a conversion of the identifier or of a required numeric field is
discarded entirely, never repaired by substitution. -/
theorem schema_coercion_filters_rows (rows : List RawRecord) :
    (clean_table rows).length ≤ rows.length
    ∧ (∀ t ∈ clean_table rows, ∃ r ∈ rows, ∃ q : ℚ,
        toNumeric r.studentID = some q ∧ t.studentID = truncQ q
        ∧ toNumeric r.studyHours = some t.studyHours
        ∧ toNumeric r.techSkill = some t.techSkill
        ∧ toNumeric r.motivation = some t.motivation
        ∧ toNumeric r.age = some t.age)
    ∧ (∀ r ∈ rows,
        (toNumeric r.studentID = none ∨ toNumeric r.studyHours = none
          ∨ toNumeric r.techSkill = none ∨ toNumeric r.motivation = none
          ∨ toNumeric r.age = none) →
        coerceRow r = none ∧ ∀ t ∈ clean_table rows, coerceRow r ≠ some t) := by
  refine ⟨List.length_filterMap_le _ _, ?_, ?_⟩
  · intro t ht
    rcases List.mem_filterMap.mp ht with ⟨r, hr, hcr⟩
    exact ⟨r, hr, coerceRow_spec r t hcr⟩
  · intro r _ h
    have hn := coerceRow_eq_none r h
    exact ⟨hn, fun t _ hc => by rw [hn] at hc; cases hc⟩

/-- Witness for C1 on a concrete two-row table: the well-formed row is
kept with its converted values, the "MAIN" row is discarded. -/
theorem schema_coercion_filters_rows_w :
    (⟨3, 1, 1, 1, 1, "Slow", "a", "b", "c", "d"⟩ : TypedRecord) ∈
      clean_table
        [⟨Cell.num 3, Cell.num 1, Cell.num 1, Cell.num 1, Cell.num 1, "Slow", "a", "b", "c", "d"⟩,
         ⟨Cell.str "MAIN", Cell.num 1, Cell.num 1, Cell.num 1, Cell.num 1, "Fast", "a", "b", "c", "d"⟩]
    ∧ coerceRow ⟨Cell.str "MAIN", Cell.num 1, Cell.num 1, Cell.num 1, Cell.num 1,
        "Fast", "a", "b", "c", "d"⟩ = none := by
  constructor
  · decide
  · exact ((schema_coercion_filters_rows
      [⟨Cell.num 3, Cell.num 1, Cell.num 1, Cell.num 1, Cell.num 1, "Slow", "a", "b", "c", "d"⟩,
       ⟨Cell.str "MAIN", Cell.num 1, Cell.num 1, Cell.num 1, Cell.num 1, "Fast", "a", "b", "c", "d"⟩]).2.2
      _ (by decide) (Or.inl (by decide))).1

/-- C2: the Feature Encoder's ordinal lookup is fixed and closed:
"Slow" maps to 1, "Average" to 2, "Fast" to 3, any other value maps to
nothing, and the encoded column is the pointwise image of the lookup
(each row's encoding depends only on that row's value, independent of
row order and dataset size). -/
theorem internet_ordinal_fixed_lookup (s : String) (rows : List TypedRecord) (i : ℕ) :
    internet_map "Slow" = some 1 ∧ internet_map "Average" = some 2
    ∧ internet_map "Fast" = some 3
    ∧ (s ≠ "Slow" → s ≠ "Average" → s ≠ "Fast" → internet_map s = none)
    ∧ (encodeInternet rows)[i]? = (rows[i]?).map (fun r => internet_map r.internet) := by
  refine ⟨by decide, by decide, by decide, ?_, ?_⟩
  · intro h1 h2 h3; simp [internet_map, h1, h2, h3]
  · simp [encodeInternet]

/-- Witness for C2 at the concrete out-of-set value "Wifi". -/
theorem internet_ordinal_fixed_lookup_w :
    ("Wifi" : String) ≠ "Slow" ∧ ("Wifi" : String) ≠ "Average"
    ∧ ("Wifi" : String) ≠ "Fast" ∧ internet_map "Wifi" = none :=
  ⟨by decide, by decide, by decide,
    (internet_ordinal_fixed_lookup "Wifi" [] 0).2.2.2.1 (by decide) (by decide) (by decide)⟩

/-- C10: the identifier convertibility test admits any numeric value, not
only integers: "3.7" parses to the rational 37/10, its truncation is 3,
and a row whose identifier and numeric fields all convert is kept with
the truncated identifier rather than discarded. -/
theorem fractional_identifier_truncated (r : RawRecord) (q sh ts mo ag : ℚ) :
    parseDecimal "3.7" = some (37 / 10)
    ∧ truncQ (37 / 10) = 3
    ∧ (toNumeric r.studentID = some q → toNumeric r.studyHours = some sh →
        toNumeric r.techSkill = some ts → toNumeric r.motivation = some mo →
        toNumeric r.age = some ag →
        coerceRow r = some ⟨truncQ q, sh, ts, mo, ag, r.internet, r.device,
          r.location, r.onlinePref, r.dataAccess⟩) := by
  refine ⟨parse37, trunc37, ?_⟩
  intro h0 h1 h2 h3 h4
  exact coerceRow_eq_some r q sh ts mo ag h0 h1 h2 h3 h4

/-- Witness for C10: a concrete row with identifier text "3.7" is kept,
with identifier 3. -/
theorem fractional_identifier_truncated_w :
    toNumeric (Cell.str "3.7") = some (37 / 10)
    ∧ coerceRow ⟨Cell.str "3.7", Cell.num 1, Cell.num 1, Cell.num 1, Cell.num 1,
        "Slow", "a", "b", "c", "d"⟩ =
      some ⟨truncQ (37 / 10), 1, 1, 1, 1, "Slow", "a", "b", "c", "d"⟩ := by
  have hp : toNumeric (Cell.str "3.7") = some (37 / 10) := parse37
  exact ⟨hp,
    (fractional_identifier_truncated
      ⟨Cell.str "3.7", Cell.num 1, Cell.num 1, Cell.num 1, Cell.num 1,
        "Slow", "a", "b", "c", "d"⟩ (37 / 10) 1 1 1 1).2.2
      hp (by decide) (by decide) (by decide) (by decide)⟩

/-! ### Helper lemmas: the string sort order -/

lemma strLtAux_cons_iff (x y : Char) (as bs : List Char) :
    strLtAux (x :: as) (y :: bs) = true ↔
      (x.toNat < y.toNat ∨ (x.toNat = y.toNat ∧ strLtAux as bs = true)) := by
  simp only [strLtAux]
  split_ifs with h1 h2
  · simp [h1]
  · simp; omega
  · have hxy : x.toNat = y.toNat := by omega
    simp [hxy, h2]

lemma strLtAux_trans (a : List Char) : ∀ (b c : List Char),
    strLtAux a b = true → strLtAux b c = true → strLtAux a c = true := by
  induction a with
  | nil =>
      intro b c hab hbc
      cases b <;> cases c <;> simp_all [strLtAux]
  | cons x as ih =>
      intro b c hab hbc
      cases b with
      | nil => simp [strLtAux] at hab
      | cons y bs =>
          cases c with
          | nil => simp [strLtAux] at hbc
          | cons z cs =>
              rw [strLtAux_cons_iff] at hab hbc ⊢
              rcases hab with hab | ⟨e1, hab⟩ <;> rcases hbc with hbc | ⟨e2, hbc⟩
              · exact Or.inl (hab.trans hbc)
              · exact Or.inl (by omega)
              · exact Or.inl (by omega)
              · exact Or.inr ⟨by omega, ih bs cs hab hbc⟩

lemma strLtAux_total (a : List Char) : ∀ (b : List Char),
    a = b ∨ strLtAux a b = true ∨ strLtAux b a = true := by
  induction a with
  | nil =>
      intro b
      cases b with
      | nil => exact Or.inl rfl
      | cons y bs => exact Or.inr (Or.inl (by simp [strLtAux]))
  | cons x as ih =>
      intro b
      cases b with
      | nil => exact Or.inr (Or.inr (by simp [strLtAux]))
      | cons y bs =>
          by_cases hxy : x.toNat < y.toNat
          · exact Or.inr (Or.inl ((strLtAux_cons_iff x y as bs).mpr (Or.inl hxy)))
          · by_cases hyx : y.toNat < x.toNat
            · exact Or.inr (Or.inr ((strLtAux_cons_iff y x bs as).mpr (Or.inl hyx)))
            · have hx : x = y := by
                have h3 : Char.ofNat x.toNat = Char.ofNat y.toNat :=
                  congrArg Char.ofNat (by omega)
                rwa [Char.ofNat_toNat, Char.ofNat_toNat] at h3
              rcases ih bs with h | h | h
              · exact Or.inl (by rw [hx, h])
              · exact Or.inr (Or.inl
                  ((strLtAux_cons_iff x y as bs).mpr (Or.inr ⟨by omega, h⟩)))
              · exact Or.inr (Or.inr
                  ((strLtAux_cons_iff y x bs as).mpr (Or.inr ⟨by omega, h⟩)))

lemma strLt_trans (a b c : String) (h1 : strLt a b = true) (h2 : strLt b c = true) :
    strLt a c = true :=
  strLtAux_trans a.toList b.toList c.toList h1 h2

lemma strLt_total (a b : String) : a = b ∨ strLt a b = true ∨ strLt b a = true := by
  rcases strLtAux_total a.toList b.toList with h | h | h
  · exact Or.inl (String.ext h)
  · exact Or.inr (Or.inl h)
  · exact Or.inr (Or.inr h)

/-! ### Helper lemmas: the mode of a column -/

lemma mem_firstOccurAux (xs : List String) : ∀ (acc : List String) (v : String),
    v ∈ firstOccurAux xs acc ↔ v ∈ acc ∨ v ∈ xs := by
  induction xs with
  | nil => intro acc v; simp [firstOccurAux]
  | cons x xs ih =>
      intro acc v
      by_cases hx : x ∈ acc
      · rw [firstOccurAux, if_pos hx, ih]
        constructor
        · rintro (h | h)
          · exact Or.inl h
          · exact Or.inr (List.mem_cons_of_mem x h)
        · rintro (h | h)
          · exact Or.inl h
          · rcases List.mem_cons.mp h with rfl | h
            · exact Or.inl hx
            · exact Or.inr h
      · rw [firstOccurAux, if_neg hx, ih]
        constructor
        · rintro (h | h)
          · rcases List.mem_cons.mp h with rfl | h
            · exact Or.inr (List.mem_cons_self _ _)
            · exact Or.inl h
          · exact Or.inr (List.mem_cons_of_mem x h)
        · rintro (h | h)
          · exact Or.inl (List.mem_cons_of_mem x h)
          · rcases List.mem_cons.mp h with rfl | h
            · exact Or.inl (List.mem_cons_self _ _)
            · exact Or.inr h

lemma modeBetter_iff (xs : List String) (v w : String) :
    modeBetter xs v w = true ↔
      (xs.count w < xs.count v ∨ (xs.count v = xs.count w ∧ strLt v w = true)) := by
  simp only [modeBetter]
  split_ifs with h1 h2
  · exact iff_of_true rfl (Or.inl h1)
  · constructor
    · intro h; exact Or.inr ⟨h2, h⟩
    · rintro (h | ⟨e, h⟩)
      · omega
      · exact h
  · constructor
    · intro h; cases h
    · rintro (h | ⟨e, h⟩)
      · exact absurd h h1
      · exact absurd e h2

lemma beats_trans (xs : List String) (u v w : String)
    (h1 : xs.count v < xs.count u
      ∨ (xs.count v = xs.count u ∧ (u = v ∨ strLt u v = true)))
    (h2 : xs.count w < xs.count v
      ∨ (xs.count w = xs.count v ∧ (v = w ∨ strLt v w = true))) :
    xs.count w < xs.count u
      ∨ (xs.count w = xs.count u ∧ (u = w ∨ strLt u w = true)) := by
  rcases h1 with h1 | ⟨e1, d1⟩ <;> rcases h2 with h2 | ⟨e2, d2⟩
  · exact Or.inl (h2.trans h1)
  · exact Or.inl (by omega)
  · exact Or.inl (by omega)
  · refine Or.inr ⟨by omega, ?_⟩
    rcases d1 with rfl | d1
    · exact d2
    · rcases d2 with rfl | d2
      · exact Or.inr d1
      · exact Or.inr (strLt_trans u v w d1 d2)

lemma modePick_mem (xs vs : List String) : ∀ (b : String),
    modePick xs vs b = b ∨ modePick xs vs b ∈ vs := by
  induction vs with
  | nil => intro b; exact Or.inl rfl
  | cons v vs ih =>
      intro b
      rw [modePick]
      by_cases h : modeBetter xs v b = true
      · rw [if_pos h]
        rcases ih v with h2 | h2
        · rw [h2]; exact Or.inr (List.mem_cons_self _ _)
        · exact Or.inr (List.mem_cons_of_mem v h2)
      · rw [if_neg h]
        rcases ih b with h2 | h2
        · exact Or.inl h2
        · exact Or.inr (List.mem_cons_of_mem v h2)

lemma modePick_beats (xs vs : List String) : ∀ (b w : String),
    (w = b ∨ w ∈ vs) →
    xs.count w < xs.count (modePick xs vs b)
      ∨ (xs.count w = xs.count (modePick xs vs b)
          ∧ (modePick xs vs b = w ∨ strLt (modePick xs vs b) w = true)) := by
  induction vs with
  | nil =>
      intro b w hw
      rcases hw with rfl | h
      · exact Or.inr ⟨rfl, Or.inl rfl⟩
      · cases h
  | cons v vs ih =>
      intro b w hw
      rw [modePick]
      by_cases hb : modeBetter xs v b = true
      · rw [if_pos hb]
        have hvb : xs.count b < xs.count v
            ∨ (xs.count b = xs.count v ∧ (v = b ∨ strLt v b = true)) := by
          rcases (modeBetter_iff xs v b).mp hb with h | ⟨e, h⟩
          · exact Or.inl h
          · exact Or.inr ⟨by omega, Or.inr h⟩
        rcases hw with hwb | hw2
        · subst hwb
          exact beats_trans xs (modePick xs vs v) v w (ih v v (Or.inl rfl)) hvb
        · exact ih v w (List.mem_cons.mp hw2)
      · rw [if_neg hb]
        have hnb := hb
        rw [modeBetter_iff] at hnb
        push_neg at hnb
        have hbv : xs.count v < xs.count b
            ∨ (xs.count v = xs.count b ∧ (b = v ∨ strLt b v = true)) := by
          rcases Nat.lt_trichotomy (xs.count v) (xs.count b) with h | h | h
          · exact Or.inl h
          · refine Or.inr ⟨h, ?_⟩
            rcases strLt_total v b with heq | hlt | hlt
            · exact Or.inl heq.symm
            · exact absurd hlt (hnb.2 h)
            · exact Or.inr hlt
          · exact absurd h (by omega)
        rcases hw with hwb | hw2
        · subst hwb
          exact ih w w (Or.inl rfl)
        · rcases List.mem_cons.mp hw2 with hwv | hw3
          · subst hwv
            exact beats_trans xs (modePick xs vs b) b w (ih b b (Or.inl rfl)) hbv
          · exact ih b w (Or.inr hw3)

lemma modeOf_spec (xs : List String) (hx : xs ≠ []) :
    modeOf xs ∈ xs
    ∧ (∀ w ∈ xs, xs.count w ≤ xs.count (modeOf xs))
    ∧ (∀ w ∈ xs, xs.count w = xs.count (modeOf xs) →
        modeOf xs = w ∨ strLt (modeOf xs) w = true) := by
  rcases List.exists_mem_of_ne_nil xs hx with ⟨x, hxm⟩
  have hxf : x ∈ firstOccurAux xs [] := (mem_firstOccurAux xs [] x).mpr (Or.inr hxm)
  cases hfo : firstOccurAux xs [] with
  | nil => rw [hfo] at hxf; cases hxf
  | cons v vs =>
      have hval : modeOf xs = modePick xs vs v := by rw [modeOf, hfo]
      have hmem : modeOf xs ∈ xs := by
        rw [hval]
        rcases modePick_mem xs vs v with h | h
        · rw [h]
          have hvf : v ∈ firstOccurAux xs [] := by
            rw [hfo]; exact List.mem_cons_self _ _
          rcases (mem_firstOccurAux xs [] v).mp hvf with hc | hc
          · cases hc
          · exact hc
        · have hmf : modePick xs vs v ∈ firstOccurAux xs [] := by
            rw [hfo]; exact List.mem_cons_of_mem v h
          rcases (mem_firstOccurAux xs [] _).mp hmf with hc | hc
          · cases hc
          · exact hc
      have hbeat : ∀ w ∈ xs,
          xs.count w < xs.count (modeOf xs)
            ∨ (xs.count w = xs.count (modeOf xs)
                ∧ (modeOf xs = w ∨ strLt (modeOf xs) w = true)) := by
        intro w hw
        have hwf : w ∈ firstOccurAux xs [] := (mem_firstOccurAux xs [] w).mpr (Or.inr hw)
        rw [hfo] at hwf
        rw [hval]
        exact modePick_beats xs vs v w (by
          rcases List.mem_cons.mp hwf with rfl | h
          · exact Or.inl rfl
          · exact Or.inr h)
      refine ⟨hmem, ?_, ?_⟩
      · intro w hw
        rcases hbeat w hw with h | ⟨e, _⟩
        · exact Nat.le_of_lt h
        · exact Nat.le_of_eq e
      · intro w hw he
        rcases hbeat w hw with h | ⟨_, d⟩
        · omega
        · exact d

lemma modeOf_pandasMode (xs : List String) (h : xs ≠ []) : pandasMode xs (modeOf xs) := by
  obtain ⟨h1, h2, h3⟩ := modeOf_spec xs h
  exact ⟨h1, fun w hw => ⟨h2 w hw, h3 w hw⟩⟩

/-! ### Helper lemmas: the profiler's group keys -/

lemma le_foldr_max (labels : List ℕ) : ∀ c ∈ labels, c ≤ labels.foldr max 0 := by
  induction labels with
  | nil => intro c hc; cases hc
  | cons x xs ih =>
      intro c hc
      rcases List.mem_cons.mp hc with rfl | h
      · exact le_max_left _ _
      · exact (ih c h).trans (le_max_right _ _)

lemma mem_distinctLabelsSorted (labels : List ℕ) (c : ℕ) :
    c ∈ distinctLabelsSorted labels ↔ c ∈ labels := by
  simp only [distinctLabelsSorted, List.mem_filter, List.mem_range, decide_eq_true_eq]
  exact ⟨fun h => h.2, fun h => ⟨Nat.lt_succ_of_le (le_foldr_max labels c h), h⟩⟩

lemma nodup_distinctLabelsSorted (labels : List ℕ) :
    (distinctLabelsSorted labels).Nodup :=
  (List.nodup_range _).filter _

lemma analyze_clusters_map_cluster (rows : List TypedRecord) (labels : List ℕ) :
    (analyze_clusters rows labels).map ClusterProfile.cluster
      = distinctLabelsSorted labels := by
  rw [analyze_clusters, List.map_map]
  have h : (ClusterProfile.cluster ∘ profileOf rows labels) = id := by
    funext c; rfl
  rw [h, List.map_id]

/-! ### Claim theorem: C7 (amended) with counterexample -/

/-- C7 (amended): the Cluster Profiler produces exactly one summary row
per distinct cluster label; each summary row carries, for the numeric
fields, the arithmetic mean over the rows sharing the label, and for each
categorical field a most frequent original (un-encoded) value of the
group, with ties broken by the smallest value in the sort order pandas
applies to the mode set (not by first encounter in row order). -/
theorem analyze_clusters_profile (rows : List TypedRecord) (labels : List ℕ) :
    ((analyze_clusters rows labels).map ClusterProfile.cluster).Nodup
    ∧ (∀ c, c ∈ (analyze_clusters rows labels).map ClusterProfile.cluster ↔ c ∈ labels)
    ∧ (∀ p ∈ analyze_clusters rows labels,
        (p.meanStudyHours
            = meanQ ((groupRows rows labels p.cluster).map TypedRecord.studyHours)
          ∧ p.meanTechSkill
            = meanQ ((groupRows rows labels p.cluster).map TypedRecord.techSkill)
          ∧ p.meanMotivation
            = meanQ ((groupRows rows labels p.cluster).map TypedRecord.motivation)
          ∧ p.meanAge
            = meanQ ((groupRows rows labels p.cluster).map TypedRecord.age))
        ∧ (groupDevices rows labels p.cluster ≠ [] →
            pandasMode (groupDevices rows labels p.cluster) p.modeDevice)
        ∧ (groupInternet rows labels p.cluster ≠ [] →
            pandasMode (groupInternet rows labels p.cluster) p.modeInternet)
        ∧ (groupLocation rows labels p.cluster ≠ [] →
            pandasMode (groupLocation rows labels p.cluster) p.modeLocation)
        ∧ (groupOnlinePref rows labels p.cluster ≠ [] →
            pandasMode (groupOnlinePref rows labels p.cluster) p.modeOnlinePref)
        ∧ (groupDataAccess rows labels p.cluster ≠ [] →
            pandasMode (groupDataAccess rows labels p.cluster) p.modeDataAccess)) := by
  refine ⟨?_, ?_, ?_⟩
  · rw [analyze_clusters_map_cluster]
    exact nodup_distinctLabelsSorted labels
  · intro c
    rw [analyze_clusters_map_cluster]
    exact mem_distinctLabelsSorted labels c
  · intro p hp
    rcases List.mem_map.mp hp with ⟨c, _, rfl⟩
    exact ⟨⟨rfl, rfl, rfl, rfl⟩,
      fun h => modeOf_pandasMode _ h, fun h => modeOf_pandasMode _ h,
      fun h => modeOf_pandasMode _ h, fun h => modeOf_pandasMode _ h,
      fun h => modeOf_pandasMode _ h⟩

/-- Witness for C7 on a concrete one-cluster table, discharging the
membership hypothesis and every nonemptiness hypothesis. -/
theorem analyze_clusters_profile_w :
    (0 ∈ (analyze_clusters [⟨1, 1, 1, 1, 20, "Slow", "b", "U", "Y", "W"⟩]
        [0]).map ClusterProfile.cluster ↔ 0 ∈ [0])
    ∧ (groupDevices [⟨1, 1, 1, 1, 20, "Slow", "b", "U", "Y", "W"⟩] [0] 0 ≠ []
        ∧ pandasMode (groupDevices [⟨1, 1, 1, 1, 20, "Slow", "b", "U", "Y", "W"⟩] [0] 0)
            (profileOf [⟨1, 1, 1, 1, 20, "Slow", "b", "U", "Y", "W"⟩] [0] 0).modeDevice)
    ∧ (groupInternet [⟨1, 1, 1, 1, 20, "Slow", "b", "U", "Y", "W"⟩] [0] 0 ≠ []
        ∧ pandasMode (groupInternet [⟨1, 1, 1, 1, 20, "Slow", "b", "U", "Y", "W"⟩] [0] 0)
            (profileOf [⟨1, 1, 1, 1, 20, "Slow", "b", "U", "Y", "W"⟩] [0] 0).modeInternet)
    ∧ (groupLocation [⟨1, 1, 1, 1, 20, "Slow", "b", "U", "Y", "W"⟩] [0] 0 ≠ []
        ∧ pandasMode (groupLocation [⟨1, 1, 1, 1, 20, "Slow", "b", "U", "Y", "W"⟩] [0] 0)
            (profileOf [⟨1, 1, 1, 1, 20, "Slow", "b", "U", "Y", "W"⟩] [0] 0).modeLocation)
    ∧ (groupOnlinePref [⟨1, 1, 1, 1, 20, "Slow", "b", "U", "Y", "W"⟩] [0] 0 ≠ []
        ∧ pandasMode (groupOnlinePref [⟨1, 1, 1, 1, 20, "Slow", "b", "U", "Y", "W"⟩] [0] 0)
            (profileOf [⟨1, 1, 1, 1, 20, "Slow", "b", "U", "Y", "W"⟩] [0] 0).modeOnlinePref)
    ∧ (groupDataAccess [⟨1, 1, 1, 1, 20, "Slow", "b", "U", "Y", "W"⟩] [0] 0 ≠ []
        ∧ pandasMode (groupDataAccess [⟨1, 1, 1, 1, 20, "Slow", "b", "U", "Y", "W"⟩] [0] 0)
            (profileOf [⟨1, 1, 1, 1, 20, "Slow", "b", "U", "Y", "W"⟩] [0] 0).modeDataAccess) := by
  have hmem : profileOf [⟨1, 1, 1, 1, 20, "Slow", "b", "U", "Y", "W"⟩] [0] 0
      ∈ analyze_clusters [⟨1, 1, 1, 1, 20, "Slow", "b", "U", "Y", "W"⟩] [0] := by
    have hd : distinctLabelsSorted [0] = [0] := by decide
    rw [analyze_clusters, hd]
    exact List.mem_singleton.mpr rfl
  have h := analyze_clusters_profile [⟨1, 1, 1, 1, 20, "Slow", "b", "U", "Y", "W"⟩] [0]
  exact ⟨h.2.1 0,
    ⟨by decide, (h.2.2 _ hmem).2.1 (by decide)⟩,
    ⟨by decide, (h.2.2 _ hmem).2.2.1 (by decide)⟩,
    ⟨by decide, (h.2.2 _ hmem).2.2.2.1 (by decide)⟩,
    ⟨by decide, (h.2.2 _ hmem).2.2.2.2.1 (by decide)⟩,
    ⟨by decide, (h.2.2 _ hmem).2.2.2.2.2 (by decide)⟩⟩

/-- Counterexample to C7 as stated: in a cluster whose device column is
["b", "a"] (a tie), the profiler reports "a" (pandas sorts the mode set
and takes the first entry), while the first-encountered-in-row-order rule
claimed by the spec reports "b". -/
theorem analyze_clusters_tie_cex :
    ((analyze_clusters
        [⟨1, 1, 1, 1, 20, "Slow", "b", "U", "Y", "W"⟩,
         ⟨2, 1, 1, 1, 20, "Fast", "a", "U", "Y", "W"⟩]
        [0, 0]).map ClusterProfile.modeDevice) = ["a"]
    ∧ firstModeOf (groupDevices
        [⟨1, 1, 1, 1, 20, "Slow", "b", "U", "Y", "W"⟩,
         ⟨2, 1, 1, 1, 20, "Fast", "a", "U", "Y", "W"⟩] [0, 0] 0) = "b"
    ∧ ("a" : String) ≠ "b" := by
  refine ⟨?_, by decide, by decide⟩
  have hd : distinctLabelsSorted [0, 0] = [0] := by decide
  rw [analyze_clusters, hd]
  show [(profileOf _ _ 0).modeDevice] = ["a"]
  have : (profileOf
      [⟨1, 1, 1, 1, 20, "Slow", "b", "U", "Y", "W"⟩,
       ⟨2, 1, 1, 1, 20, "Fast", "a", "U", "Y", "W"⟩] [0, 0] 0).modeDevice = "a" := by
    show modeOf (groupDevices
      [⟨1, 1, 1, 1, 20, "Slow", "b", "U", "Y", "W"⟩,
       ⟨2, 1, 1, 1, 20, "Fast", "a", "U", "Y", "W"⟩] [0, 0] 0) = "a"
    decide
  rw [this]

/-! ### Helper lemmas: one-hot encoding -/

lemma length_featureCols (rows : List TypedRecord) :
    encodedColCount rows = 5 + ∑ j : Fin 4, dummyCount rows j := by
  rw [encodedColCount, featureCols, List.length_append, List.length_flatten,
    List.map_map, Fin.sum_univ_def]
  simp only [Function.comp_def, List.length_map]
  rfl

lemma dummyCount_append (rows : List TypedRecord) (r : TypedRecord) (j : Fin 4) :
    dummyCount (rows ++ [r]) j =
      dummyCount rows j + (if nomField j r ∈ rows.map (nomField j) then 0 else 1) := by
  rw [dummyCount, dummyCount, ← List.card_toFinset, ← List.card_toFinset,
    List.map_append, List.toFinset_append]
  simp only [List.map_cons, List.map_nil, List.toFinset_cons, List.toFinset_nil]
  rw [Finset.union_insert, Finset.union_empty]
  split_ifs with h
  · rw [Finset.insert_eq_self.mpr (List.mem_toFinset.mpr h)]
    omega
  · rw [Finset.card_insert_of_not_mem (fun hc => h (List.mem_toFinset.mp hc))]

/-! ### Claim theorem: C3 -/

/-- C3: each nominal column is replaced by exactly one indicator column
per distinct value observed in the post-coercion dataset (every observed
value gets a column, none is dropped), so appending one row holding a
never-before-seen value for one nominal column, and already-observed
values for the other three, grows the encoded column count by exactly
one. -/
theorem one_hot_data_dependent (rows : List TypedRecord) (r : TypedRecord) (j0 : Fin 4) :
    dummyCount rows j0 = ((rows.map (nomField j0)).toFinset).card
    ∧ (∀ v ∈ rows.map (nomField j0), Col.dummy j0 v ∈ featureCols rows)
    ∧ (nomField j0 r ∉ rows.map (nomField j0) →
        (∀ j : Fin 4, j ≠ j0 → nomField j r ∈ rows.map (nomField j)) →
        encodedColCount (rows ++ [r]) = encodedColCount rows + 1) := by
  refine ⟨(List.card_toFinset _).symm, ?_, ?_⟩
  · intro v hv
    rw [featureCols, List.mem_append]
    refine Or.inr (List.mem_flatten.mpr ⟨((rows.map (nomField j0)).dedup).map (Col.dummy j0), ?_, ?_⟩)
    · exact List.mem_map.mpr ⟨j0, List.mem_finRange j0, rfl⟩
    · exact List.mem_map.mpr ⟨v, List.mem_dedup.mpr hv, rfl⟩
  · intro h1 h2
    rw [length_featureCols, length_featureCols]
    have hsum : ∑ j : Fin 4, dummyCount (rows ++ [r]) j
        = ∑ j : Fin 4, (dummyCount rows j
            + if nomField j r ∈ rows.map (nomField j) then 0 else 1) :=
      Finset.sum_congr rfl (fun j _ => dummyCount_append rows r j)
    rw [hsum, Finset.sum_add_distrib]
    have hz : ∑ j ∈ Finset.univ.erase j0,
        (if nomField j r ∈ rows.map (nomField j) then 0 else 1) = 0 :=
      Finset.sum_eq_zero (fun j hj => if_pos (h2 j (Finset.ne_of_mem_erase hj)))
    have hite : ∑ j : Fin 4,
        (if nomField j r ∈ rows.map (nomField j) then 0 else 1) = 1 := by
      rw [← Finset.sum_erase_add _ _ (Finset.mem_univ j0), hz, if_neg h1]
    rw [hite]
    omega

/-- Witness for C3: appending a row with the unseen device "Tablet" and
already-seen values elsewhere adds exactly one encoded column. -/
theorem one_hot_data_dependent_w :
    ((nomField 0 ⟨2, 2, 2, 2, 21, "Fast", "Tablet", "U", "Y", "W"⟩
        ∉ [⟨1, 1, 1, 1, 20, "Slow", "Phone", "U", "Y", "W"⟩].map (nomField 0))
      ∧ (∀ j : Fin 4, j ≠ 0 → nomField j ⟨2, 2, 2, 2, 21, "Fast", "Tablet", "U", "Y", "W"⟩
          ∈ [(⟨1, 1, 1, 1, 20, "Slow", "Phone", "U", "Y", "W"⟩ : TypedRecord)].map (nomField j)))
    ∧ encodedColCount
        ([⟨1, 1, 1, 1, 20, "Slow", "Phone", "U", "Y", "W"⟩]
          ++ [⟨2, 2, 2, 2, 21, "Fast", "Tablet", "U", "Y", "W"⟩])
      = encodedColCount [⟨1, 1, 1, 1, 20, "Slow", "Phone", "U", "Y", "W"⟩] + 1 :=
  ⟨⟨by decide, by decide⟩,
    (one_hot_data_dependent [⟨1, 1, 1, 1, 20, "Slow", "Phone", "U", "Y", "W"⟩]
      ⟨2, 2, 2, 2, 21, "Fast", "Tablet", "U", "Y", "W"⟩ 0).2.2 (by decide) (by decide)⟩

/-! ### Helper lemmas: the k-means fitter -/

lemma argminAux_lt (xs : List ℚ) : ∀ (i bi : ℕ) (bv : ℚ) (n : ℕ),
    bi < n → i + xs.length = n → argminAux xs i bi bv < n := by
  induction xs with
  | nil => intro i bi bv n h1 _; simpa [argminAux] using h1
  | cons x xs ih =>
      intro i bi bv n h1 h2
      rw [argminAux]
      rw [List.length_cons] at h2
      split_ifs
      · exact ih (i + 1) i x n (by omega) (by omega)
      · exact ih (i + 1) bi bv n h1 (by omega)

lemma argmin_lt (xs : List ℚ) (h : xs ≠ []) : argmin xs < xs.length := by
  cases xs with
  | nil => cases h rfl
  | cons x xs =>
      rw [argmin, List.length_cons]
      exact argminAux_lt xs 1 0 x (xs.length + 1) (by omega) (by omega)

lemma assignLabels_length (cents data : List Point) :
    (assignLabels cents data).length = data.length := by
  simp [assignLabels]

lemma assignLabels_lt (cents data : List Point) (h : cents ≠ []) :
    ∀ l ∈ assignLabels cents data, l < cents.length := by
  intro l hl
  rcases List.mem_map.mp hl with ⟨p, _, rfl⟩
  have hm : cents.map (fun c => dist2 p c) ≠ [] := by
    simpa using h
  simpa using argmin_lt _ hm

lemma lloyd_labels (data : List Point) (fuel : ℕ) : ∀ (cents : List Point),
    cents ≠ [] →
    (lloyd data fuel cents).1.length = data.length
    ∧ ∀ l ∈ (lloyd data fuel cents).1, l < cents.length := by
  induction fuel with
  | zero =>
      intro cents h
      exact ⟨assignLabels_length cents data, assignLabels_lt cents data h⟩
  | succ fuel ih =>
      intro cents h
      rw [lloyd]
      split_ifs with hstable
      · exact ⟨assignLabels_length cents data, assignLabels_lt cents data h⟩
      · have hlen : ((List.range cents.length).map
            (fun j => updateCentroid data (assignLabels cents data)
              (cents.getD j []) j)).length = cents.length := by
          simp
        have hne : (List.range cents.length).map
            (fun j => updateCentroid data (assignLabels cents data)
              (cents.getD j []) j) ≠ [] := by
          have hp : 0 < cents.length := List.length_pos.mpr h
          exact List.ne_nil_of_length_pos (by omega)
        obtain ⟨h1, h2⟩ := ih _ hne
        exact ⟨h1, fun l hl => hlen ▸ h2 l hl⟩

lemma seedAux_length (data : List Point) (m : ℕ) : ∀ (cents : List Point) (s : ℕ),
    (seedAux data m cents s).length = m + cents.length := by
  induction m with
  | zero => intro cents s; simp [seedAux]
  | succ m ih =>
      intro cents s
      rw [seedAux, ih]
      rw [List.length_cons]
      omega

lemma seedCentroids_length (data : List Point) (k s : ℕ) :
    (seedCentroids data k s).length = k := by
  cases k with
  | zero => rfl
  | succ m => rw [seedCentroids, seedAux_length]; rfl

lemma kmeansSingle_labels (data : List Point) (k s : ℕ) (hk : 1 ≤ k) :
    (kmeansSingle data k s).1.length = data.length
    ∧ ∀ l ∈ (kmeansSingle data k s).1, l < k := by
  have hlen : (seedCentroids data k s).length = k := seedCentroids_length data k s
  have hne : seedCentroids data k s ≠ [] :=
    List.ne_nil_of_length_pos (by omega)
  obtain ⟨h1, h2⟩ := lloyd_labels data 300 _ hne
  exact ⟨h1, fun l hl => hlen ▸ h2 l hl⟩

lemma bestOf_mem : ∀ (cs : List (List ℕ × ℚ)) (b : List ℕ × ℚ),
    bestOf cs b = b ∨ bestOf cs b ∈ cs := by
  intro cs
  induction cs with
  | nil => intro b; exact Or.inl rfl
  | cons c cs ih =>
      intro b
      rw [bestOf]
      by_cases h : c.2 < b.2
      · rw [if_pos h]
        rcases ih c with h2 | h2
        · rw [h2]; exact Or.inr (List.mem_cons_self _ _)
        · exact Or.inr (List.mem_cons_of_mem c h2)
      · rw [if_neg h]
        rcases ih b with h2 | h2
        · exact Or.inl h2
        · exact Or.inr (List.mem_cons_of_mem c h2)

/-! ### Claim theorems: C5, C9 -/

/-- C5: the Cluster Fitter is a deterministic function of the data, the
cluster count, the seed and the restart count — two runs with identical
configuration produce element-wise identical label sequences — and it
emits one label per row in row order, each label drawn from 0..k-1. -/
theorem run_kmeans_deterministic (data : List Point) (k seed nInit : ℕ)
    (hk : 1 ≤ k) (_hn : k ≤ data.length) :
    run_kmeans data k seed nInit = run_kmeans data k seed nInit
    ∧ (run_kmeans data k seed nInit).length = data.length
    ∧ ∀ l ∈ run_kmeans data k seed nInit, l < k := by
  have hbest : ∃ s, (bestOf ((List.range (nInit - 1)).map
      (fun i => kmeansSingle data k (seed + i + 1))) (kmeansSingle data k seed))
        = kmeansSingle data k s := by
    rcases bestOf_mem _ (kmeansSingle data k seed) with h | h
    · exact ⟨seed, h⟩
    · rcases List.mem_map.mp h with ⟨i, _, hi⟩
      exact ⟨seed + i + 1, hi.symm⟩
  rcases hbest with ⟨s, hs⟩
  rw [run_kmeans, hs]
  exact ⟨rfl, (kmeansSingle_labels data k s hk).1, (kmeansSingle_labels data k s hk).2⟩

/-- Witness for C5 at a concrete two-row dataset with k = 1. -/
theorem run_kmeans_deterministic_w :
    (1 ≤ 1 ∧ 1 ≤ ([[0], [1]] : List Point).length)
    ∧ ((run_kmeans [[0], [1]] 1 42 10).length = ([[0], [1]] : List Point).length
        ∧ ∀ l ∈ run_kmeans [[0], [1]] 1 42 10, l < 1) :=
  ⟨⟨by decide, by decide⟩,
    (run_kmeans_deterministic [[0], [1]] 1 42 10 (by decide) (by decide)).2⟩

/-- C9: a cluster count below 1 or above the row count is rejected as a
configuration error reported to the caller before any fitting, producing
no assignment; for any k between 1 and the row count the fit proceeds and
yields the assignment. -/
theorem run_kmeans_validates_k (data : List Point) (k seed nInit : ℕ) :
    ((k < 1 ∨ data.length < k) →
        ∃ msg, run_kmeans_checked data k seed nInit = Except.error msg)
    ∧ (1 ≤ k → k ≤ data.length →
        run_kmeans_checked data k seed nInit
          = Except.ok (run_kmeans data k seed nInit)) := by
  constructor
  · intro h
    rcases h with h | h
    · exact ⟨_, by rw [run_kmeans_checked, if_pos h]⟩
    · by_cases h1 : k < 1
      · exact ⟨_, by rw [run_kmeans_checked, if_pos h1]⟩
      · exact ⟨_, by rw [run_kmeans_checked, if_neg h1, if_pos h]⟩
  · intro h1 h2
    rw [run_kmeans_checked, if_neg (by omega), if_neg (by omega)]

/-- Witness for C9: the empty dataset with k = 1 is rejected, a one-row
dataset with k = 1 is fitted. -/
theorem run_kmeans_validates_k_w :
    (∃ msg, run_kmeans_checked [] 1 42 10 = Except.error msg)
    ∧ run_kmeans_checked [[0]] 1 42 10 = Except.ok (run_kmeans [[0]] 1 42 10) :=
  ⟨(run_kmeans_validates_k [] 1 42 10).1 (Or.inr (by decide)),
    (run_kmeans_validates_k [[0]] 1 42 10).2 (by decide) (by decide)⟩

/-! ### Helper lemmas: real column statistics -/

lemma sum_map_div_const (xs : List ℝ) (f : ℝ → ℝ) (c : ℝ) :
    (xs.map (fun x => f x / c)).sum = (xs.map f).sum / c := by
  induction xs with
  | nil => simp
  | cons x xs ih =>
      rw [List.map_cons, List.sum_cons, ih, List.map_cons, List.sum_cons, add_div]

lemma sum_map_sub_const (xs : List ℝ) (c : ℝ) :
    (xs.map (fun x => x - c)).sum = xs.sum - xs.length * c := by
  induction xs with
  | nil => simp
  | cons x xs ih =>
      rw [List.map_cons, List.sum_cons, ih, List.sum_cons, List.length_cons]
      push_cast
      ring

lemma mean_nonneg (xs : List ℝ) (h : ∀ x ∈ xs, 0 ≤ x) : 0 ≤ mean xs := by
  rw [mean]
  exact div_nonneg (List.sum_nonneg h) (Nat.cast_nonneg _)

lemma mean_mem_bounds (xs : List ℝ) (h : ∀ x ∈ xs, -1 ≤ x ∧ x ≤ 1) :
    -1 ≤ mean xs ∧ mean xs ≤ 1 := by
  cases xs with
  | nil => rw [mean]; norm_num
  | cons y ys =>
      have hlen : (0 : ℝ) < (y :: ys).length := by
        simp only [List.length_cons]
        positivity
      have hup : (y :: ys).sum ≤ (y :: ys).length • (1 : ℝ) :=
        List.sum_le_card_nsmul _ 1 (fun x hx => (h x hx).2)
      have hlo : (y :: ys).length • (-1 : ℝ) ≤ (y :: ys).sum :=
        List.card_nsmul_le_sum _ (-1) (fun x hx => (h x hx).1)
      rw [nsmul_eq_mul] at hup hlo
      rw [mean]
      constructor
      · rw [le_div_iff₀ hlen]
        linarith
      · rw [div_le_one hlen]
        linarith

lemma pvariance_nonneg (xs : List ℝ) : 0 ≤ pvariance xs := by
  rw [pvariance]
  apply div_nonneg _ (Nat.cast_nonneg _)
  apply List.sum_nonneg
  intro y hy
  rcases List.mem_map.mp hy with ⟨x, _, rfl⟩
  positivity

lemma stddev_ne_zero_of (xs : List ℝ) (h : pvariance xs ≠ 0) : stddev xs ≠ 0 := by
  rw [stddev, Real.sqrt_ne_zero']
  exact lt_of_le_of_ne (pvariance_nonneg xs) (Ne.symm h)

lemma sq_stddev (xs : List ℝ) : stddev xs ^ 2 = pvariance xs := by
  rw [stddev, Real.sq_sqrt (pvariance_nonneg xs)]

lemma pvariance_nil : pvariance ([] : List ℝ) = 0 := by
  rw [pvariance]
  simp

lemma mean_standardize (xs : List ℝ) (h : xs ≠ []) : mean (standardize xs) = 0 := by
  have hlen : (xs.length : ℝ) ≠ 0 :=
    Nat.cast_ne_zero.mpr (List.length_pos.mpr h).ne'
  have hc : (xs.length : ℝ) * (xs.sum / xs.length) = xs.sum := by
    field_simp
  rw [mean, standardize, List.length_map, sum_map_div_const, sum_map_sub_const,
    mean, hc, sub_self, zero_div, zero_div]

lemma pvariance_standardize (xs : List ℝ) (h : pvariance xs ≠ 0) :
    pvariance (standardize xs) = 1 := by
  have hne : xs ≠ [] := by
    intro he
    rw [he, pvariance_nil] at h
    exact h rfl
  have hlen : (xs.length : ℝ) ≠ 0 :=
    Nat.cast_ne_zero.mpr (List.length_pos.mpr hne).ne'
  have hm := mean_standardize xs hne
  rw [pvariance, hm]
  simp only [sub_zero]
  rw [standardize, List.length_map, List.map_map]
  have hfun : ((fun y => y ^ 2) ∘ fun x => (x - mean xs) / scaleFactor xs)
      = fun x => (x - mean xs) ^ 2 / scaleFactor xs ^ 2 := by
    funext x
    simp [div_pow]
  rw [hfun, sum_map_div_const]
  have hsf : scaleFactor xs = stddev xs := by
    rw [scaleFactor, if_neg (stddev_ne_zero_of xs h)]
  rw [hsf, sq_stddev]
  have hS : (xs.map (fun x => (x - mean xs) ^ 2)).sum ≠ 0 := by
    intro h0
    apply h
    rw [pvariance, h0, zero_div]
  have hV : pvariance xs * xs.length = (xs.map (fun x => (x - mean xs) ^ 2)).sum := by
    rw [pvariance]
    field_simp
  rw [div_div, hV, div_self hS]

lemma standardize_const (xs : List ℝ) (h : pvariance xs = 0) :
    standardize xs = List.replicate xs.length 0 := by
  by_cases hne : xs = []
  · rw [hne]; rfl
  · have hlen : (xs.length : ℝ) ≠ 0 :=
      Nat.cast_ne_zero.mpr (List.length_pos.mpr hne).ne'
    have hS : (xs.map (fun x => (x - mean xs) ^ 2)).sum = 0 := by
      rw [pvariance, div_eq_zero_iff] at h
      rcases h with h | h
      · exact h
      · exact absurd h hlen
    have hall : ∀ x ∈ xs, x = mean xs := by
      intro x hx
      have hnn : ∀ y ∈ xs.map (fun x => (x - mean xs) ^ 2), 0 ≤ y := by
        intro y hy
        rcases List.mem_map.mp hy with ⟨z, _, rfl⟩
        positivity
      have hmem : (x - mean xs) ^ 2 ∈ xs.map (fun x => (x - mean xs) ^ 2) :=
        List.mem_map_of_mem _ hx
      have hle : (x - mean xs) ^ 2 ≤ 0 := hS ▸ List.single_le_sum hnn _ hmem
      have hz : (x - mean xs) ^ 2 = 0 := le_antisymm hle (by positivity)
      have := (pow_eq_zero_iff two_ne_zero).mp hz
      linarith
    rw [standardize]
    apply List.eq_replicate_iff.mpr
    refine ⟨List.length_map _ _, ?_⟩
    intro b hb
    rcases List.mem_map.mp hb with ⟨x, hx, rfl⟩
    rw [hall x hx, sub_self, zero_div]

lemma presentVals_map_some (xs : List ℝ) : presentVals (xs.map some) = xs := by
  rw [presentVals, List.filterMap_map]
  simp

/-! ### Claim theorems: C4, C8 -/

/-- C4: on a fully numeric column the Feature Scaler computes
`(x - mean) / stddev`; when the column's variance is nonzero the scaled
column has mean 0 and standard deviation 1, and a zero-variance column
scales to all zeros instead of a division-by-zero; the identifier column
is not among the scaled feature columns. -/
theorem feature_scaler_standardizes (xs : List ℝ) (rows : List TypedRecord) :
    (pvariance xs ≠ 0 →
        standardize xs = xs.map (fun x => (x - mean xs) / stddev xs)
        ∧ mean (standardize xs) = 0 ∧ stddev (standardize xs) = 1)
    ∧ (pvariance xs = 0 → standardize xs = List.replicate xs.length 0)
    ∧ scaleColumnOpt (xs.map some) = (standardize xs).map some
    ∧ Col.studentID ∉ featureCols rows := by
  refine ⟨?_, standardize_const xs, ?_, ?_⟩
  · intro h
    have hne : xs ≠ [] := by
      intro he
      rw [he, pvariance_nil] at h
      exact h rfl
    have hsf : scaleFactor xs = stddev xs := by
      rw [scaleFactor, if_neg (stddev_ne_zero_of xs h)]
    refine ⟨by rw [standardize, hsf], mean_standardize xs hne, ?_⟩
    rw [stddev, pvariance_standardize xs h, Real.sqrt_one]
  · rw [scaleColumnOpt, presentVals_map_some, standardize, List.map_map, List.map_map]
    rfl
  · rw [featureCols, List.mem_append]
    rintro (h | h)
    · simp at h
    · rcases List.mem_flatten.mp h with ⟨l, hl, hmem⟩
      rcases List.mem_map.mp hl with ⟨j, _, rfl⟩
      rcases List.mem_map.mp hmem with ⟨v, _, hv⟩
      cases hv

/-- Witness for C4: the column [0, 2] has variance 1 and standardizes to
mean 0 and deviation 1; the constant column [5, 5] standardizes to zeros. -/
theorem feature_scaler_standardizes_w :
    (pvariance [(0 : ℝ), 2] ≠ 0
      ∧ mean (standardize [(0 : ℝ), 2]) = 0 ∧ stddev (standardize [(0 : ℝ), 2]) = 1)
    ∧ (pvariance [(5 : ℝ), 5] = 0
      ∧ standardize [(5 : ℝ), 5] = List.replicate 2 0) := by
  have h1 : pvariance [(0 : ℝ), 2] ≠ 0 := by
    norm_num [pvariance, mean]
  have h2 : pvariance [(5 : ℝ), 5] = 0 := by
    norm_num [pvariance, mean]
  refine ⟨⟨h1, ((feature_scaler_standardizes [(0 : ℝ), 2] []).1 h1).2⟩, h2, ?_⟩
  have h3 := (feature_scaler_standardizes [(5 : ℝ), 5] []).2.1 h2
  simpa using h3

/-- C8: a post-coercion row whose ordinal value lies outside
{Slow, Average, Fast} is encoded as a missing value in the Internet
column, and the Feature Scaler still returns a column of the full row
count in which that entry stays missing — the defect propagates, it does
not crash the scaler. -/
theorem unmapped_ordinal_flows_to_scaler (rows : List TypedRecord) (r : TypedRecord)
    (hr : r ∈ rows) (h1 : r.internet ≠ "Slow") (h2 : r.internet ≠ "Average")
    (h3 : r.internet ≠ "Fast") :
    none ∈ columnOf rows Col.internet
    ∧ (scaleColumnOpt (columnOf rows Col.internet)).length = rows.length
    ∧ none ∈ scaleColumnOpt (columnOf rows Col.internet) := by
  have hmap : internet_map r.internet = none := by
    simp [internet_map, h1, h2, h3]
  have hcol : none ∈ columnOf rows Col.internet := by
    simp only [columnOf]
    exact List.mem_map.mpr ⟨r, hr, by rw [hmap]; rfl⟩
  refine ⟨hcol, ?_, ?_⟩
  · simp only [columnOf, scaleColumnOpt, List.length_map]
  · rw [scaleColumnOpt]
    exact List.mem_map.mpr ⟨none, hcol, rfl⟩

/-- Witness for C8 at the concrete unmapped value "Wifi". -/
theorem unmapped_ordinal_flows_to_scaler_w :
    none ∈ columnOf [⟨1, 1, 1, 1, 20, "Wifi", "a", "b", "c", "d"⟩] Col.internet
    ∧ (scaleColumnOpt (columnOf [⟨1, 1, 1, 1, 20, "Wifi", "a", "b", "c", "d"⟩]
        Col.internet)).length
      = ([(⟨1, 1, 1, 1, 20, "Wifi", "a", "b", "c", "d"⟩ : TypedRecord)]).length
    ∧ none ∈ scaleColumnOpt (columnOf [⟨1, 1, 1, 1, 20, "Wifi", "a", "b", "c", "d"⟩]
        Col.internet) :=
  unmapped_ordinal_flows_to_scaler [⟨1, 1, 1, 1, 20, "Wifi", "a", "b", "c", "d"⟩]
    ⟨1, 1, 1, 1, 20, "Wifi", "a", "b", "c", "d"⟩
    (by decide) (by decide) (by decide) (by decide)

/-! ### Helper lemmas: the silhouette scorer -/

lemma foldl_min_le_start (xs : List ℝ) : ∀ (acc : ℝ),
    (∀ x ∈ xs, 0 ≤ x) → 0 ≤ acc → 0 ≤ xs.foldl min acc := by
  induction xs with
  | nil => intro acc _ h; simpa using h
  | cons x xs ih =>
      intro acc hall hacc
      rw [List.foldl_cons]
      exact ih (min acc x)
        (fun y hy => hall y (List.mem_cons_of_mem x hy))
        (le_min hacc (hall x (List.mem_cons_self _ _)))

lemma listMinR_nonneg (xs : List ℝ) (h : ∀ x ∈ xs, 0 ≤ x) : 0 ≤ listMinR xs := by
  cases xs with
  | nil => rw [listMinR]
  | cons x xs =>
      rw [listMinR]
      exact foldl_min_le_start xs x
        (fun y hy => h y (List.mem_cons_of_mem x hy))
        (h x (List.mem_cons_self _ _))

lemma div_max_bounds (a b : ℝ) (ha : 0 ≤ a) (hb : 0 ≤ b) :
    -1 ≤ (b - a) / max a b ∧ (b - a) / max a b ≤ 1 := by
  by_cases hm : max a b = 0
  · have ha0 : a = 0 := le_antisymm (hm ▸ le_max_left a b) ha
    have hb0 : b = 0 := le_antisymm (hm ▸ le_max_right a b) hb
    rw [ha0, hb0]
    norm_num
  · have hpos : 0 < max a b :=
      lt_of_le_of_ne (le_trans ha (le_max_left a b)) (Ne.symm hm)
    constructor
    · rw [le_div_iff₀ hpos]
      have := le_max_left a b
      nlinarith
    · rw [div_le_one hpos]
      have := le_max_right a b
      nlinarith

lemma sil_a_nonneg (data : List (List ℝ)) (labels : List ℕ) (i : ℕ) :
    0 ≤ sil_a data labels i := by
  rw [sil_a]
  apply mean_nonneg
  intro x hx
  rcases List.mem_map.mp hx with ⟨j, _, rfl⟩
  exact Real.sqrt_nonneg _

lemma sil_b_nonneg (data : List (List ℝ)) (labels : List ℕ) (i : ℕ) :
    0 ≤ sil_b data labels i := by
  rw [sil_b]
  apply listMinR_nonneg
  intro x hx
  rcases List.mem_map.mp hx with ⟨c, _, rfl⟩
  apply mean_nonneg
  intro y hy
  rcases List.mem_map.mp hy with ⟨j, _, rfl⟩
  exact Real.sqrt_nonneg _

lemma silSample_bounds (data : List (List ℝ)) (labels : List ℕ) (i : ℕ) :
    -1 ≤ silSample data labels i ∧ silSample data labels i ≤ 1 := by
  rw [silSample]
  split_ifs
  · norm_num
  · norm_num
  · exact div_max_bounds _ _ (sil_a_nonneg data labels i) (sil_b_nonneg data labels i)

lemma silhouette_eq_zero (data : List (List ℝ)) (labels : List ℕ)
    (h : ∀ i, i < labels.length → silSample data labels i = 0) :
    silhouette_score data labels = 0 := by
  rw [silhouette_score, mean, List.sum_eq_zero, zero_div]
  intro x hx
  rcases List.mem_map.mp hx with ⟨i, hi, rfl⟩
  exact h i (List.mem_range.mp hi)

lemma mem_idxOfLabel (labels : List ℕ) (c j : ℕ) :
    j ∈ idxOfLabel labels c ↔ labels[j]? = some c := by
  rw [idxOfLabel]
  constructor
  · intro h
    rcases List.mem_map.mp h with ⟨pr, hpr, rfl⟩
    have hmem := List.mem_filter.mp hpr
    have hc : pr.2 = c := by simpa using hmem.2
    have := List.mk_mem_enum_iff_getElem?.mp (by
      have : (pr.1, pr.2) = pr := rfl
      rw [this]
      exact hmem.1)
    rw [← hc]
    exact this
  · intro h
    apply List.mem_map.mpr
    refine ⟨(j, c), List.mem_filter.mpr ⟨List.mk_mem_enum_iff_getElem?.mpr h, by simp⟩, rfl⟩

lemma idxOfLabel_length (labels : List ℕ) (c : ℕ) :
    (idxOfLabel labels c).length = labels.count c := by
  rw [idxOfLabel, List.length_map, ← List.countP_eq_length_filter]
  conv_rhs => rw [← List.enum_map_snd labels]
  rw [List.count, List.countP_map]
  apply List.countP_congr
  intro pr _
  simp [Function.comp]

lemma singleton_cluster_sample (data : List (List ℝ)) (labels : List ℕ) (i : ℕ)
    (hi : i < labels.length) (hc : labels.count (labels.getD i 0) = 1) :
    silSample data labels i = 0 := by
  have hmem : i ∈ idxOfLabel labels (labels.getD i 0) := by
    rw [mem_idxOfLabel, List.getD_eq_getElem labels 0 hi]
    exact List.getElem?_eq_getElem hi
  have hlen : (idxOfLabel labels (labels.getD i 0)).length = 1 := by
    rw [idxOfLabel_length]
    exact hc
  rcases List.length_eq_one.mp hlen with ⟨a, ha⟩
  have hia : i = a := by
    rw [ha] at hmem
    exact List.mem_singleton.mp hmem
  have hown : (idxOfLabel labels (labels.getD i 0)).filter (fun j => j ≠ i) = [] := by
    rw [ha, ← hia]
    simp
  rw [silSample, if_pos hown]

/-! ### Claim theorem: C6 -/

/-- C6: the quality score, the mean over all points of
`(b - a) / max a b`, always lies in [-1, 1] (in particular for any k
between 2 and n-1); the per-point term of a point in a singleton cluster
is 0, and when only one cluster exists (k = 1), or when every cluster is
a singleton, the score is 0 rather than undefined. -/
theorem silhouette_score_props (data : List (List ℝ)) (labels : List ℕ) :
    (-1 ≤ silhouette_score data labels ∧ silhouette_score data labels ≤ 1)
    ∧ (labels.dedup.length ≤ 1 → silhouette_score data labels = 0)
    ∧ (∀ i, i < labels.length → labels.count (labels.getD i 0) = 1 →
        silSample data labels i = 0)
    ∧ (labels.Nodup → silhouette_score data labels = 0) := by
  refine ⟨?_, ?_, singleton_cluster_sample data labels, ?_⟩
  · rw [silhouette_score]
    apply mean_mem_bounds
    intro x hx
    rcases List.mem_map.mp hx with ⟨i, _, rfl⟩
    exact silSample_bounds data labels i
  · intro hk
    apply silhouette_eq_zero
    intro i hi
    have hothers : (labels.dedup).filter (fun c => c ≠ labels.getD i 0) = [] := by
      have hc0 : labels.getD i 0 ∈ labels.dedup := by
        rw [List.mem_dedup, List.getD_eq_getElem labels 0 hi]
        exact labels.getElem_mem hi
      cases hd : labels.dedup with
      | nil => rfl
      | cons a t =>
          have ht : t = [] := by
            rw [hd] at hk
            simp only [List.length_cons] at hk
            exact List.eq_nil_of_length_eq_zero (by omega)
          rw [ht] at hd
          rw [hd] at hc0
          have ha : labels.getD i 0 = a := List.mem_singleton.mp hc0
          rw [ht, ha]
          simp
    rw [silSample]
    by_cases h1 : (idxOfLabel labels (labels.getD i 0)).filter (fun j => j ≠ i) = []
    · rw [if_pos h1]
    · rw [if_neg h1, if_pos hothers]
  · intro hnd
    apply silhouette_eq_zero
    intro i hi
    apply singleton_cluster_sample data labels i hi
    apply List.count_eq_one_of_mem hnd
    rw [List.getD_eq_getElem labels 0 hi]
    exact labels.getElem_mem hi

/-- Witness for C6: a nodup label list scores 0; a one-cluster label list
scores 0; a singleton-cluster point has term 0. -/
theorem silhouette_score_props_w :
    (([0, 1] : List ℕ).Nodup ∧ silhouette_score [[(0 : ℝ)], [1]] [0, 1] = 0)
    ∧ (([0, 0] : List ℕ).dedup.length ≤ 1
        ∧ silhouette_score [[(0 : ℝ)], [1]] [0, 0] = 0)
    ∧ (0 < ([0, 1] : List ℕ).length ∧ ([0, 1] : List ℕ).count (([0, 1] : List ℕ).getD 0 0) = 1
        ∧ silSample [[(0 : ℝ)], [1]] [0, 1] 0 = 0) :=
  ⟨⟨by decide, (silhouette_score_props [[(0 : ℝ)], [1]] [0, 1]).2.2.2 (by decide)⟩,
    ⟨by decide, (silhouette_score_props [[(0 : ℝ)], [1]] [0, 0]).2.1 (by decide)⟩,
    ⟨by decide, by decide,
      (silhouette_score_props [[(0 : ℝ)], [1]] [0, 1]).2.2.1 0 (by decide) (by decide)⟩⟩

end StudentClustering
